import Mathlib

/- Verification of the Fallout 4 ESP/ESM/ESL binary plugin decoder of this
   repository (Tools/fo4_esp_parser.py): a shallow embedding of the byte
   cursor (BinaryReader), the TES4 header decoder, the GRUP container
   walker, the record decoder with its subrecord splitter, and the FormID
   resolver, together with theorems settling the specified properties.

   Modelling conventions:
   - Bytes are lists of naturals (every input constructed here uses values
     below 256); positions are naturals.  Python slicing data[pos:pos+n]
     truncates at the end of the buffer and never fails, which is modelled
     exactly by readBytes.  struct.unpack_from raises when the request
     exceeds the buffer, modelled by Option-returning fixed-width reads.
   - Exceptions that escape the decoder (assert failures, struct.error)
     are modelled as the value none of the surrounding Option computation.
   - Text decoding (utf-8 with cp1252 and hex fallbacks) is total in the
     source and never influences control flow of the decoder, so decoded
     strings are abstracted as the raw stripped bytes.  Four-byte record
     and subrecord signatures are kept as raw bytes: the decode used by
     the source (ascii, with an 8-character hex fallback) is injective on
     4-byte inputs, so every equality and membership test on decoded
     signatures corresponds exactly to an equality test on the raw bytes.
   - zlib.decompress is abstracted as an explicit oracle argument
     inflate : Bytes -> Nat -> Option Bytes (stream and size hint to
     result, none modelling zlib.error); zlib rejects the empty stream,
     so the constant-none oracle is realised by any compressed record
     whose payload is just the 4-byte size hint.
   - The container walker additionally returns the list of positions at
     which it dispatched a direct child entry.  This is a ghost output:
     no decoder decision depends on it. -/

namespace FO4

abbrev Bytes := List Nat

/-- Little-endian value of a byte list (the value struct.unpack reads from
the exact slice; slice lengths are checked separately wherever the source
checks them). -/
def leNat : Bytes → Nat
  | [] => 0
  | b :: bs => b + 256 * leNat bs

/-- Two-byte little-endian encoding. -/
def u16le (n : Nat) : Bytes := [n % 256, n / 256 % 256]

/-- Four-byte little-endian encoding. -/
def u32le (n : Nat) : Bytes := [n % 256, n / 256 % 256, n / 65536 % 256, n / 16777216 % 256]

/-- The Python slice data[pos : pos + n]: truncated at the end of the
buffer, never failing. -/
def readBytes (data : Bytes) (pos n : Nat) : Bytes := (data.drop pos).take n

/- Signatures, as raw bytes (see the conventions above). -/

def sigTES4 : Bytes := [84, 69, 83, 52]
def sigGRUP : Bytes := [71, 82, 85, 80]
def sigXXXX : Bytes := [88, 88, 88, 88]
def sigKYWD : Bytes := [75, 89, 87, 68]
def sigWEAP : Bytes := [87, 69, 65, 80]
def sigEDID : Bytes := [69, 68, 73, 68]
def sigFULL : Bytes := [70, 85, 76, 76]
def sigKSIZ : Bytes := [75, 83, 73, 90]
def sigKWDA : Bytes := [75, 87, 68, 65]
def sigHEDR : Bytes := [72, 69, 68, 82]
def sigCNAM : Bytes := [67, 78, 65, 77]
def sigSNAM : Bytes := [83, 78, 65, 77]
def sigMAST : Bytes := [77, 65, 83, 84]
def sigDATA : Bytes := [68, 65, 84, 65]

/- == BinaryReader (the byte cursor) ==
   Each method of the Python class becomes a function of the buffer and
   the current position, returning the read value and the new position. -/

/-- BinaryReader.read: result = data[pos:pos+n] (a truncating slice),
position advances by the full requested n even past the end. -/
def br_read (data : Bytes) (pos n : Nat) : Bytes × Nat :=
  (readBytes data pos n, pos + n)

/-- BinaryReader.read_uint8: struct.unpack_from, failing out of bounds. -/
def br_read_uint8 (data : Bytes) (pos : Nat) : Option (Nat × Nat) :=
  if pos + 1 ≤ data.length then some (leNat (readBytes data pos 1), pos + 1) else none

/-- BinaryReader.read_uint16: struct.unpack_from, failing out of bounds. -/
def br_read_uint16 (data : Bytes) (pos : Nat) : Option (Nat × Nat) :=
  if pos + 2 ≤ data.length then some (leNat (readBytes data pos 2), pos + 2) else none

/-- BinaryReader.read_uint32: struct.unpack_from, failing out of bounds. -/
def br_read_uint32 (data : Bytes) (pos : Nat) : Option (Nat × Nat) :=
  if pos + 4 ≤ data.length then some (leNat (readBytes data pos 4), pos + 4) else none

/-- BinaryReader.read_int32: signed 32-bit two-complement decode,
failing out of bounds. -/
def br_read_int32 (data : Bytes) (pos : Nat) : Option (Int × Nat) :=
  if pos + 4 ≤ data.length then
    some (if leNat (readBytes data pos 4) < 2147483648 then
            (leNat (readBytes data pos 4) : Int)
          else (leNat (readBytes data pos 4) : Int) - 4294967296, pos + 4)
  else none

/-- BinaryReader.read_float: struct.unpack_from of 4 bytes, failing out of
bounds; the IEEE bit pattern is kept uninterpreted. -/
def br_read_float (data : Bytes) (pos : Nat) : Option (Nat × Nat) :=
  if pos + 4 ≤ data.length then some (leNat (readBytes data pos 4), pos + 4) else none

/-- Truncation at the first embedded null, as in read_string. -/
def truncAtNull (b : Bytes) : Bytes := b.takeWhile (fun x => x ≠ 0)

/-- BinaryReader.read_string: a truncating slice of n bytes, cut at the
first null; the text decode (utf-8, cp1252, hex fallback) is total and
abstracted as the raw cut bytes.  Never fails; position advances by n. -/
def br_read_string (data : Bytes) (pos n : Nat) : Bytes × Nat :=
  (truncAtNull (readBytes data pos n), pos + n)

/-- BinaryReader.read_sig: a truncating slice of 4 bytes, kept raw (the
ascii-or-hex decode is injective on 4-byte inputs).  Never fails. -/
def br_read_sig (data : Bytes) (pos : Nat) : Bytes × Nat :=
  (readBytes data pos 4, pos + 4)

/-- BinaryReader.remaining (nonnegative part; the callers below only
consult it at positions not past the end of the buffer). -/
def br_remaining (data : Bytes) (pos : Nat) : Nat := data.length - pos

/-- BinaryReader.peek_sig compared against a given ascii signature: true
exactly when 4 bytes are available and they equal the signature (the
None results of peek_sig never compare equal to an ascii signature). -/
def br_peek_is (data : Bytes) (pos : Nat) (s : Bytes) : Bool :=
  if pos + 4 ≤ data.length then (if readBytes data pos 4 = s then true else false)
  else false

/- == ESPRecord and its subrecord post-processing == -/

/-- Python bytes.rstrip of trailing null bytes, used before text decode. -/
def rstripZeros (b : Bytes) : Bytes := (b.reverse.dropWhile (fun x => x = 0)).reverse

/-- The FULL display-name subrecord: a 4-byte payload is a localized
string indirection (surfaced as such), anything else is decoded text
(abstracted as the stripped raw bytes, matching the total decode of the
source). -/
inductive FullName where
  | text (raw : Bytes)
  | lstring (id : Nat)
  deriving DecidableEq

/-- The fields ESPRecord.parse_subrecords computes: the named fields of
the record object plus the keyword_count local variable of the method.
raw_data models the subrecord-type-to-payload dictionary of the source as
an ordered multimap (the source grows a per-type list on repetition). -/
structure SubParse where
  editor_id : Bytes := []
  full_name : FullName := FullName.text []
  keyword_count : Nat := 0
  keywords : List Nat := []
  raw_data : List (Bytes × Bytes) := []
  deriving DecidableEq

/-- The KWDA decode loop: consecutive 4-byte little-endian identities; a
trailing fragment of fewer than 4 bytes is dropped. -/
def kwdaChunks : Bytes → List Nat
  | a :: b :: c :: d :: rest => leNat [a, b, c, d] :: kwdaChunks rest
  | _ => []

/-- One iteration of the loop of ESPRecord.parse_subrecords.  The KSIZ
branch mirrors struct.unpack on the whole payload, which the source only
attempts for payloads of at least 4 bytes and which raises unless the
payload is exactly 4 bytes (modelled as none). -/
def subStep (acc : SubParse) (sub : Bytes × Bytes) : Option SubParse :=
  let t := sub.1
  let d := sub.2
  let step1 : Option SubParse :=
    if t = sigEDID then some { acc with editor_id := rstripZeros d }
    else if t = sigFULL then
      some { acc with full_name :=
        if d.length = 4 then FullName.lstring (leNat d) else FullName.text (rstripZeros d) }
    else if t = sigKSIZ then
      if 4 ≤ d.length then
        if d.length = 4 then some { acc with keyword_count := leNat d } else none
      else some acc
    else if t = sigKWDA then some { acc with keywords := kwdaChunks d }
    else some acc
  match step1 with
  | none => none
  | some a => some { a with raw_data := a.raw_data ++ [(t, d)] }

/-- The loop of ESPRecord.parse_subrecords over the subrecord list. -/
def parseSubFieldsGo : SubParse → List (Bytes × Bytes) → Option SubParse
  | acc, [] => some acc
  | acc, s :: rest =>
    match subStep acc s with
    | none => none
    | some a => parseSubFieldsGo a rest

/-- ESPRecord.parse_subrecords, from the freshly initialised record
fields. -/
def parse_subrecords (subs : List (Bytes × Bytes)) : Option SubParse :=
  parseSubFieldsGo {} subs

/-- One decoded record (the fields of the ESPRecord class; the derived
fields come from parse_subrecords). -/
structure ESPRec where
  type : Bytes
  data_size : Nat
  flags : Nat
  form_id : Nat
  timestamp : Nat
  version_info : Nat
  subrecords : List (Bytes × Bytes)
  is_compressed : Bool
  editor_id : Bytes
  full_name : FullName
  keywords : List Nat
  raw_data : List (Bytes × Bytes)
  deriving DecidableEq

/-- The payload of the last KWDA subrecord of a list, if any. -/
def lastKwda : List (Bytes × Bytes) → Option Bytes
  | [] => none
  | (t, d) :: rest =>
    match lastKwda rest with
    | some d2 => some d2
    | none => if t = sigKWDA then some d else none

/-- The keyword list the splitter output determines: the chunked payload
of the last KWDA subrecord, or the given default when none occurs. -/
def kwOf (subs : List (Bytes × Bytes)) (dflt : List Nat) : List Nat :=
  match lastKwda subs with
  | some d => kwdaChunks d
  | none => dflt

/- == The subrecord splitter of ESPParser._parse_record ==
   The loop over the (decompressed) record payload: read a 4-byte type
   and a 16-bit size (both in bounds: the loop guard guarantees at least
   6 bytes remain); for the XXXX escape, read 4 bytes as a 32-bit
   override (struct.unpack raising, modelled none, if fewer than 4 bytes
   remain) and produce no subrecord; otherwise apply a pending override
   to this entry only, stop if the size overruns the payload, else emit
   the subrecord.  Fuel only bounds the iteration count; the guard is
   checked before fuel so exhausted fuel is only reachable on a real
   iteration. -/
def parseSubsLoop (rd : Bytes) : Nat → Nat → Option Nat → List (Bytes × Bytes) →
    Option (List (Bytes × Bytes))
  | fuel, pos, xxxxSize, acc =>
    if pos < rd.length ∧ 6 ≤ rd.length - pos then
      match fuel with
      | 0 => none
      | f + 1 =>
        let subT := readBytes rd pos 4
        let subSize := leNat (readBytes rd (pos + 4) 2)
        if subT = sigXXXX then
          let raw := readBytes rd (pos + 6) 4
          if raw.length = 4 then parseSubsLoop rd f (pos + 10) (some (leNat raw)) acc
          else none
        else
          let size2 := match xxxxSize with
            | some v => v
            | none => subSize
          if size2 > rd.length - (pos + 6) then some acc
          else parseSubsLoop rd f (pos + 6 + size2) none
            (acc ++ [(subT, readBytes rd (pos + 6) size2)])
    else some acc

/- == ESPParser.resolve_formid ==
   The method only reads self.masters and self.filename; it is embedded
   as a function of those two values and the 32-bit identity. -/

/-- One uppercase hexadecimal digit. -/
def hexDigit (n : Nat) : Char := Char.ofNat (if n < 10 then 48 + n else 55 + n)

/-- The uppercase hexadecimal digits of n, most significant first (empty
for 0); the first argument is structural fuel, always called with n. -/
def hexDigitsAux : Nat → Nat → List Char
  | 0, _ => []
  | f + 1, n => if n = 0 then [] else hexDigitsAux f (n / 16) ++ [hexDigit (n % 16)]

/-- The Python format spec 0wX: uppercase hexadecimal, left-padded with
zeros to at least the given width. -/
def formatHex (n width : Nat) : String :=
  let ds := if n = 0 then [Char.ofNat 48] else hexDigitsAux n n
  String.mk (List.replicate (width - ds.length) (Char.ofNat 48) ++ ds)

/-- ESPParser.resolve_formid: high byte of the identity is the master
index, the low 24 bits the local id; a master index below the number of
declared masters resolves to that master, one equal to it resolves to the
file itself, anything larger to an explicit unknown-master placeholder. -/
def resolve_formid (masters : List String) (filename : String) (form_id : Nat) :
    String × String :=
  let master_idx := (form_id >>> 24) &&& 255
  let local_id := form_id &&& 16777215
  if master_idx < masters.length then (masters.getD master_idx (String.mk []), formatHex local_id 6)
  else if master_idx = masters.length then (filename, formatHex local_id 6)
  else ("UNKNOWN_MASTER_" ++ formatHex master_idx 2, formatHex local_id 6)

/- == ESPParser state ==
   The mutable attributes of the ESPParser object that the decoding pass
   touches.  self.records (a per-type dict of lists) is modelled by the
   canonical insertion-ordered store recordsList: every append goes to
   records[sig] with rec.type = sig, so the per-type list of the source
   equals recordsList filtered by type (recordsOfType below).  warnings
   models the console WARNING print of the decompression-failure branch,
   the only warning the decoder emits (only under verbose). -/

structure PState where
  masters : List Bytes := []
  author : Bytes := []
  description : Bytes := []
  version_bits : Nat := 0
  num_records_bits : Nat := 0
  next_object_id : Nat := 0
  is_esm : Bool := false
  is_esl : Bool := false
  is_localized : Bool := false
  recordsList : List ESPRec := []
  records_by_formid : List (Nat × ESPRec) := []
  group_count : Nat := 0
  record_count : Nat := 0
  compressed_count : Nat := 0
  type_counts : List (Bytes × Nat) := []
  warnings : List (Bytes × Nat) := []
  deriving DecidableEq

/-- The by-type index: the records of one type in insertion order (the
list self.records[t] of the source). -/
def recordsOfType (st : PState) (t : Bytes) : List ESPRec :=
  st.recordsList.filter (fun r => r.type = t)

/-- Lookup in the counter dictionary (defaultdict(int)). -/
def assocGet : List (Bytes × Nat) → Bytes → Nat
  | [], _ => 0
  | (k2, v) :: rest, k => if k2 = k then v else assocGet rest k

/-- Increment in the counter dictionary (defaultdict(int)). -/
def assocBump : List (Bytes × Nat) → Bytes → List (Bytes × Nat)
  | [], k => [(k, 1)]
  | (k2, v) :: rest, k => if k2 = k then (k2, v + 1) :: rest else (k2, v) :: assocBump rest k

/-- Insert-or-replace in the by-identity index (dict assignment: a later
record with the same identity replaces the entry). -/
def fidSet : List (Nat × ESPRec) → Nat → ESPRec → List (Nat × ESPRec)
  | [], k, v => [(k, v)]
  | (k2, v2) :: rest, k, v =>
    if k2 = k then (k, v) :: rest else (k2, v2) :: fidSet rest k v

/- == ESPParser._parse_tes4 == -/

/-- The TES4 subrecord loop: read a signature (a truncating slice) and a
16-bit size (struct.unpack_from, failing out of bounds), slice the
payload, and interpret HEDR (three fixed-width unpacks of payload slices,
each raising unless its slice holds 4 bytes), CNAM, SNAM, MAST and DATA;
unknown types are skipped by length.  The guard is checked before fuel. -/
def parseTes4Loop (data : Bytes) (endPos : Nat) : Nat → Nat → PState → Option (PState × Nat)
  | fuel, pos, st =>
    if pos < endPos then
      match fuel with
      | 0 => none
      | f + 1 =>
        let subT := (br_read_sig data pos).1
        match br_read_uint16 data (pos + 4) with
        | none => none
        | some (subSize, _) =>
          let subData := readBytes data (pos + 6) subSize
          let pos2 := pos + 6 + subSize
          if subT = sigHEDR then
            if 4 ≤ subData.length then
              if 8 ≤ subData.length then
                if 12 ≤ subData.length then
                  parseTes4Loop data endPos f pos2
                    { st with version_bits := leNat (readBytes subData 0 4),
                              num_records_bits := leNat (readBytes subData 4 4),
                              next_object_id := leNat (readBytes subData 8 4) }
                else none
              else none
            else none
          else if subT = sigCNAM then
            parseTes4Loop data endPos f pos2 { st with author := rstripZeros subData }
          else if subT = sigSNAM then
            parseTes4Loop data endPos f pos2 { st with description := rstripZeros subData }
          else if subT = sigMAST then
            parseTes4Loop data endPos f pos2
              { st with masters := st.masters ++ [rstripZeros subData] }
          else
            parseTes4Loop data endPos f pos2 st
    else some (st, pos)

/-- ESPParser._parse_tes4: the leading entry must carry the TES4
signature (the assert aborts the decode otherwise), then the five
fixed-width envelope fields are read (form id, timestamp and version info
are read into locals and dropped by the source), the flag booleans are
derived, and the subrecord block delimited by the declared data size is
decoded. -/
def parseTes4 (data : Bytes) (pos : Nat) (st : PState) : Option (PState × Nat) :=
  let s := br_read_sig data pos
  if s.1 = sigTES4 then
    match br_read_uint32 data s.2 with
    | none => none
    | some (dataSize, p2) =>
      match br_read_uint32 data p2 with
      | none => none
      | some (flags, p3) =>
        match br_read_uint32 data p3 with
        | none => none
        | some (_formId, p4) =>
          match br_read_uint32 data p4 with
          | none => none
          | some (_timestamp, p5) =>
            match br_read_uint32 data p5 with
            | none => none
            | some (_versionInfo, p6) =>
              parseTes4Loop data (p6 + dataSize) (dataSize + 1) p6
                { st with is_esm := flags &&& 1 ≠ 0,
                          is_esl := flags &&& 512 ≠ 0,
                          is_localized := flags &&& 64 ≠ 0 }
  else none

/- == ESPParser._parse_record == -/

/-- The tail of _parse_record shared by the compressed and uncompressed
paths: split the payload into subrecords, run parse_subrecords, and store
the record in the by-type and by-identity indexes. -/
def finishRecord (st : PState) (rec0 : ESPRec) (rd : Bytes) (pos2 : Nat) :
    Option (PState × Nat × Option ESPRec) :=
  match parseSubsLoop rd (rd.length + 1) 0 none [] with
  | none => none
  | some subs =>
    match parse_subrecords subs with
    | none => none
    | some flds =>
      let rec1 := { rec0 with
        subrecords := subs,
        editor_id := flds.editor_id,
        full_name := flds.full_name,
        keywords := flds.keywords,
        raw_data := flds.raw_data }
      some ({ st with
        recordsList := st.recordsList ++ [rec1],
        records_by_formid := fidSet st.records_by_formid rec1.form_id rec1 },
        pos2, some rec1)

/-- ESPParser._parse_record.  Fewer than 24 remaining bytes: skip the
rest and return None.  Otherwise the 24-byte envelope is read (in bounds
by the guard, so the five unpack_from reads are written as direct
slices), the record and per-type counters are incremented, and a declared
size larger than the remaining bytes skips the rest and returns None (the
record is dropped).  Otherwise the payload is sliced; a compressed record
of at least 4 payload bytes has its tail inflated with the first 4 bytes
as size hint; inflation failure returns the record without storing it
(recording the WARNING print when verbose).  The filter argument is
accepted and ignored, as in the source. -/
def parseRecord (inflate : Bytes → Nat → Option Bytes) (verbose : Bool)
    (data : Bytes) (_filt : Option (List Bytes)) (pos : Nat) (st : PState) :
    Option (PState × Nat × Option ESPRec) :=
  if br_remaining data pos < 24 then
    some (st, pos + br_remaining data pos, none)
  else
    let sig := readBytes data pos 4
    let dataSize := leNat (readBytes data (pos + 4) 4)
    let flags := leNat (readBytes data (pos + 8) 4)
    let formId := leNat (readBytes data (pos + 12) 4)
    let timestamp := leNat (readBytes data (pos + 16) 4)
    let versionInfo := leNat (readBytes data (pos + 20) 4)
    let st1 := { st with
      record_count := st.record_count + 1,
      type_counts := assocBump st.type_counts sig }
    let p1 := pos + 24
    if dataSize > br_remaining data p1 then
      some (st1, p1 + br_remaining data p1, none)
    else
      let recordData := readBytes data p1 dataSize
      let pos2 := p1 + dataSize
      let isComp := flags &&& 262144 ≠ 0
      let rec0 : ESPRec := {
        type := sig, data_size := dataSize, flags := flags, form_id := formId,
        timestamp := timestamp, version_info := versionInfo, subrecords := [],
        is_compressed := decide isComp, editor_id := [], full_name := FullName.text [],
        keywords := [], raw_data := [] }
      if isComp ∧ 4 ≤ recordData.length then
        let st2 := { st1 with compressed_count := st1.compressed_count + 1 }
        let dsize := leNat (readBytes recordData 0 4)
        match inflate (recordData.drop 4) dsize with
        | none =>
          some ({ st2 with
            warnings := if verbose then st2.warnings ++ [(sig, formId)] else st2.warnings },
            pos2, some rec0)
        | some rd => finishRecord st2 rec0 rd pos2
      else finishRecord st1 rec0 recordData pos2

/- == ESPParser._parse_group and the top-level loop of parse == -/

/-- The filtering test of _parse_group: Python evaluates
filter_types and group_label not in filter_types, where an empty
filter set is falsy (no filtering). -/
def skipFilter (filt : Option (List Bytes)) (label : Bytes) : Bool :=
  match filt with
  | some fs => if fs = [] then false else if label ∈ fs then false else true
  | none => false

/-- A walker activation: either a GRUP entry at a position, or the
content loop of a group with its content end (an integer, since the
declared size may be below the 24-byte envelope) and the ghost list of
already dispatched positions. -/
inductive WalkCall where
  | group (pos : Nat)
  | loop (endPos : Int) (pos : Nat) (disp : List Nat)

/-- ESPParser._parse_group as a fuel-indexed step function.

    group: the asserted GRUP signature is read, then the envelope (size,
    raw 4-byte label slice, int32 group type, timestamp, version info;
    each fixed-width read failing out of bounds), the group counter is
    incremented, and the content end pos + 24 + (size - 24) computed in
    exact integer arithmetic.  A type-0 group whose label the filter
    excludes skips its whole content: the skip lands at pos + size, which
    equals the content end.  Otherwise the content loop runs.

    loop: while the position is below the content end and at least 4
    bytes remain, entries are dispatched: a GRUP peek recurses into
    group, anything else goes to the record decoder.  The dispatched
    positions are collected in the ghost disp list (positions handed to
    nested groups are recorded in their own activation, not the parent).
    Both guards are checked before fuel, so fuel exhaustion (modelling
    divergence of the source, none) only occurs on a real iteration. -/
def walk (inflate : Bytes → Nat → Option Bytes) (verbose : Bool) (data : Bytes)
    (filt : Option (List Bytes)) : Nat → WalkCall → PState →
    Option (PState × Nat × List Nat)
  | fuel, WalkCall.group pos, st =>
    let s := br_read_sig data pos
    if s.1 = sigGRUP then
      match br_read_uint32 data s.2 with
      | none => none
      | some (groupSize, p2) =>
        let lbl := br_read data p2 4
        match br_read_int32 data lbl.2 with
        | none => none
        | some (groupType, p4) =>
          match br_read_uint32 data p4 with
          | none => none
          | some (_timestamp, p5) =>
            match br_read_uint32 data p5 with
            | none => none
            | some (_versionInfo, p6) =>
              let st1 := { st with group_count := st.group_count + 1 }
              let endPos : Int := (p6 : Int) + ((groupSize : Int) - 24)
              if groupType = 0 ∧ skipFilter filt lbl.1 then
                some (st1, pos + groupSize, [])
              else
                match fuel with
                | 0 => none
                | f + 1 => walk inflate verbose data filt f (WalkCall.loop endPos p6 []) st1
    else none
  | fuel, WalkCall.loop endPos pos disp, st =>
    if (pos : Int) < endPos then
      if br_remaining data pos < 4 then some (st, pos, disp)
      else
        match fuel with
        | 0 => none
        | f + 1 =>
          if br_peek_is data pos sigGRUP then
            match walk inflate verbose data filt f (WalkCall.group pos) st with
            | none => none
            | some (st2, pos2, _) =>
              walk inflate verbose data filt f (WalkCall.loop endPos pos2 (disp ++ [pos])) st2
          else
            match parseRecord inflate verbose data filt pos st with
            | none => none
            | some (st2, pos2, _) =>
              walk inflate verbose data filt f (WalkCall.loop endPos pos2 (disp ++ [pos])) st2
    else some (st, pos, disp)

/-- ESPParser._parse_group at a position (see walk). -/
def parseGroup (inflate : Bytes → Nat → Option Bytes) (verbose : Bool) (data : Bytes)
    (filt : Option (List Bytes)) (fuel pos : Nat) (st : PState) :
    Option (PState × Nat × List Nat) :=
  walk inflate verbose data filt fuel (WalkCall.group pos) st

/-- The top-level loop of ESPParser.parse: while data remains and at
least 4 bytes are left, a GRUP peek goes to the group walker, anything
else to the record decoder. -/
def topLoop (inflate : Bytes → Nat → Option Bytes) (verbose : Bool) (data : Bytes)
    (filt : Option (List Bytes)) : Nat → Nat → PState → Option PState
  | fuel, pos, st =>
    if pos < data.length ∧ 4 ≤ data.length - pos then
      match fuel with
      | 0 => none
      | f + 1 =>
        if br_peek_is data pos sigGRUP then
          match walk inflate verbose data filt f (WalkCall.group pos) st with
          | none => none
          | some (st2, pos2, _) => topLoop inflate verbose data filt f pos2 st2
        else
          match parseRecord inflate verbose data filt pos st with
          | none => none
          | some (st2, pos2, _) => topLoop inflate verbose data filt f pos2 st2
    else some st

/-- ESPParser.parse on a byte buffer: the TES4 header first, then the
top-level loop.  The fuel bound data.length + 1 covers every terminating
run of the source on the inputs considered here; exhaustion models the
divergence the source exhibits on degenerate inputs (for example a
filtered type-0 group declaring size 0 repeats forever) as none. -/
def espParse (inflate : Bytes → Nat → Option Bytes) (verbose : Bool)
    (filt : Option (List Bytes)) (data : Bytes) : Option PState :=
  match parseTes4 data 0 {} with
  | none => none
  | some (st, pos) => topLoop inflate verbose data filt (data.length + 1) pos st

/- == Concrete inputs == -/

/-- A minimal TES4 header: signature, declared data size 0, flags 0, and
three opaque zero words; it declares no masters. -/
def tes4Bytes : Bytes :=
  [84, 69, 83, 52, 0, 0, 0, 0, 0, 0, 0, 0, 0, 0, 0, 0, 0, 0, 0, 0, 0, 0, 0, 0]

/-- A file whose single record is a compressed KYWD (flag 0x40000) with a
4-byte payload: the size hint 0 followed by an empty DEFLATE stream,
which zlib rejects. -/
def c1File : Bytes := tes4Bytes ++ sigKYWD ++ u32le 4 ++ u32le 262144
  ++ u32le 1 ++ u32le 0 ++ u32le 0 ++ [0, 0, 0, 0]

/-- A file whose single record envelope declares a 100-byte payload while
no payload bytes remain: the truncated-file case. -/
def c6File : Bytes := tes4Bytes ++ sigKYWD ++ u32le 100 ++ u32le 0
  ++ u32le 1 ++ u32le 0 ++ u32le 0

/-- A file whose single top-level entry is a WEAP record outside any
container. -/
def c5CexFile : Bytes := tes4Bytes ++ sigWEAP ++ u32le 0 ++ u32le 0
  ++ u32le 2 ++ u32le 0 ++ u32le 0

/-- A GRUP declaring total size 48 (24 bytes of content) whose single
record entry declares a 10-byte payload, with those 10 bytes lying
beyond the group content but inside the buffer. -/
def c2Data : Bytes := sigGRUP ++ u32le 48 ++ [65, 65, 65, 65] ++ u32le 0
  ++ u32le 0 ++ u32le 0
  ++ [66, 66, 66, 66] ++ u32le 10 ++ u32le 0 ++ u32le 3 ++ u32le 0 ++ u32le 0
  ++ [0, 0, 0, 0, 0, 0, 0, 0, 0, 0]

/- == Filtered decode (C5) == -/

/-- Envelope tail of a top-level type-0 group labelled WEAP: label,
group type 0, timestamp, version info. -/
def c5GrupTail : Bytes := sigWEAP ++ [0, 0, 0, 0, 0, 0, 0, 0, 0, 0, 0, 0]

/-- A file consisting of the minimal TES4 header and one top-level
type-0 group labelled WEAP whose declared size covers an arbitrary
content blob. -/
def c5File (junk : Bytes) : Bytes :=
  tes4Bytes ++ sigGRUP ++ u32le (junk.length + 24) ++ c5GrupTail ++ junk

@[simp] lemma u16le_length (n : Nat) : (u16le n).length = 2 := rfl

@[simp] lemma u32le_length (n : Nat) : (u32le n).length = 4 := rfl

lemma leNat_u16le (n : Nat) (h : n < 65536) : leNat (u16le n) = n := by
  simp [u16le, leNat]; omega

lemma leNat_u32le (n : Nat) (h : n < 4294967296) : leNat (u32le n) = n := by
  simp [u32le, leNat]; omega

lemma drop_append_of_le (a b : Bytes) : ∀ pos, pos ≤ a.length →
    (a ++ b).drop pos = a.drop pos ++ b := by
  induction a with
  | nil =>
    intro pos h
    have hp : pos = 0 := by simpa using h
    subst hp; simp
  | cons x xs ih =>
    intro pos h
    cases pos with
    | zero => simp
    | succ p => simpa using ih p (by simpa using h)

lemma take_append_of_le (a b : Bytes) : ∀ n, n ≤ a.length →
    (a ++ b).take n = a.take n := by
  induction a with
  | nil =>
    intro n h
    have hn : n = 0 := by simpa using h
    subst hn; simp
  | cons x xs ih =>
    intro n h
    cases n with
    | zero => simp
    | succ m => simpa using ih m (by simpa using h)

lemma drop_append_len (a b : Bytes) : ∀ k, (a ++ b).drop (a.length + k) = b.drop k := by
  induction a with
  | nil => simp
  | cons x xs ih =>
    intro k
    have : (x :: xs).length + k = (xs.length + k) + 1 := by simp; omega
    rw [this]
    simp [ih k]

/-- Reads that fall inside a prefix of an appended buffer only see the
prefix. -/
lemma readBytes_append_left (a b : Bytes) (pos n : Nat) (h : pos + n ≤ a.length) :
    readBytes (a ++ b) pos n = readBytes a pos n := by
  unfold readBytes
  rw [drop_append_of_le a b pos (by omega)]
  exact take_append_of_le _ _ _ (by simp; omega)

/-- Reads past a prefix of an appended buffer only see the suffix. -/
lemma readBytes_append_right (a b : Bytes) (k n : Nat) :
    readBytes (a ++ b) (a.length + k) n = readBytes b k n := by
  unfold readBytes
  rw [drop_append_len]

/-- C7: the claim states every cursor read whose requested length exceeds
the bytes remaining fails out of bounds rather than returning data.  It is
false: BinaryReader.read slices, returning only the 2 available bytes of a
5-byte request without any failure (and still advancing the position by
the requested 5). -/
theorem c7_cex :
    br_read [1, 2] 0 5 = ([1, 2], 5) ∧ (br_read [1, 2] 0 5).1.length < 5 := by
  decide

/-- C7 amended: only the fixed-width reads (read_uint8/16/32, read_int32,
read_float) fail with an out-of-bounds condition; read, read_string and
read_sig silently truncate at the end of the buffer, returning fewer bytes
than requested, and still advance the position by the requested length. -/
theorem c7_amended (data : Bytes) (pos n : Nat) :
    ((br_read data pos n).1.length = min n (data.length - pos)
      ∧ (br_read data pos n).2 = pos + n)
    ∧ ((br_read_sig data pos).1.length = min 4 (data.length - pos)
      ∧ (br_read_sig data pos).2 = pos + 4)
    ∧ (br_read_string data pos n).2 = pos + n
    ∧ (data.length < pos + 1 → br_read_uint8 data pos = none)
    ∧ (data.length < pos + 2 → br_read_uint16 data pos = none)
    ∧ (data.length < pos + 4 →
        br_read_uint32 data pos = none ∧ br_read_int32 data pos = none
          ∧ br_read_float data pos = none) := by
  refine ⟨⟨?_, rfl⟩, ⟨?_, rfl⟩, rfl, ?_, ?_, ?_⟩
  · simp [br_read, readBytes]
  · simp [br_read_sig, readBytes]
  · intro h; simp [br_read_uint8]; omega
  · intro h; simp [br_read_uint16]; omega
  · intro h
    refine ⟨?_, ?_, ?_⟩ <;> simp [br_read_uint32, br_read_int32, br_read_float] <;> omega

/-- C7 amended, witnessed on the empty buffer: every fixed-width read at
position 0 of an empty buffer is out of bounds and returns none. -/
theorem c7_witness :
    br_read_uint8 [] 0 = none ∧ br_read_uint16 [] 0 = none
      ∧ br_read_uint32 [] 0 = none := by
  refine ⟨(c7_amended [] 0 3).2.2.2.1 (by decide),
          (c7_amended [] 0 3).2.2.2.2.1 (by decide),
          ((c7_amended [] 0 3).2.2.2.2.2 (by decide)).1⟩

lemma subStep_keywords (acc : SubParse) (t : Bytes) (d : Bytes) (a : SubParse)
    (h : subStep acc (t, d) = some a) :
    a.keywords = if t = sigKWDA then kwdaChunks d else acc.keywords := by
  have e1 : sigEDID ≠ sigKWDA := by decide
  have e2 : sigFULL ≠ sigKWDA := by decide
  have e3 : sigKSIZ ≠ sigKWDA := by decide
  unfold subStep at h
  simp only at h
  split_ifs at h with h1 h2 h3 h4 h5 h6 <;>
    (injection h with h; subst h; simp_all)

lemma lastKwda_cons (t d : Bytes) (rest : List (Bytes × Bytes)) :
    lastKwda ((t, d) :: rest)
      = (match lastKwda rest with
          | some d2 => some d2
          | none => if t = sigKWDA then some d else none) := rfl

lemma kwOf_cons (t d : Bytes) (rest : List (Bytes × Bytes)) (dflt : List Nat) :
    kwOf ((t, d) :: rest) dflt = kwOf rest (if t = sigKWDA then kwdaChunks d else dflt) := by
  by_cases ht : t = sigKWDA <;>
    cases h : lastKwda rest <;>
      simp [kwOf, lastKwda_cons, h, ht]

lemma parseSubFieldsGo_keywords :
    ∀ subs acc r, parseSubFieldsGo acc subs = some r →
      r.keywords = kwOf subs acc.keywords := by
  intro subs
  induction subs with
  | nil =>
    intro acc r h
    injection h with h
    subst h
    simp [kwOf, lastKwda]
  | cons s rest ih =>
    intro acc r h
    obtain ⟨t, d⟩ := s
    unfold parseSubFieldsGo at h
    cases hs : subStep acc (t, d) with
    | none => rw [hs] at h; exact absurd h (by simp)
    | some a =>
      rw [hs] at h
      have hk := subStep_keywords acc t d a hs
      have hr := ih a r h
      rw [kwOf_cons, hr, hk]

lemma kwdaChunks_length : ∀ d : Bytes, (kwdaChunks d).length = d.length / 4
  | [] => rfl
  | [a] => by rw [show kwdaChunks [a] = [] from rfl]; simp
  | [a, b] => by rw [show kwdaChunks [a, b] = [] from rfl]; simp
  | [a, b, c] => by rw [show kwdaChunks [a, b, c] = [] from rfl]; simp
  | a :: b :: c :: e :: rest => by
    simp [kwdaChunks, kwdaChunks_length rest]
    omega

/-- C8: the claim states the decoded keyword list is governed by the
authoritative count read from KSIZ.  It is false: KSIZ is read into a
local variable that is never used, and the keyword list is re-derived
from the byte length of KWDA.  Here KSIZ declares one keyword while KWDA
holds eight bytes, and the decoder produces two keywords. -/
theorem c8_cex :
    (parse_subrecords [(sigKSIZ, u32le 1), (sigKWDA, [1, 0, 0, 0, 2, 0, 0, 0])]).map
        SubParse.keyword_count = some 1
    ∧ (parse_subrecords [(sigKSIZ, u32le 1), (sigKWDA, [1, 0, 0, 0, 2, 0, 0, 0])]).map
        SubParse.keywords = some [1, 2] := by
  decide

/-- C8 amended: the keyword-count field is read but does not govern the
list; the decoded keyword list is exactly the chunking of the last KWDA
payload into consecutive 4-byte little-endian identities (one keyword per
full 4-byte group, so the count is the array byte length divided by 4). -/
theorem c8_amended (subs : List (Bytes × Bytes)) (h : (parse_subrecords subs).isSome) :
    (parse_subrecords subs).map SubParse.keywords = some (kwOf subs [])
    ∧ ∀ d : Bytes, (kwdaChunks d).length = d.length / 4 := by
  obtain ⟨r, hr⟩ := Option.isSome_iff_exists.mp h
  refine ⟨?_, kwdaChunks_length⟩
  rw [hr]
  have := parseSubFieldsGo_keywords subs {} r hr
  simp [this]

/-- C8 amended, witnessed: a record with a single two-identity KWDA
decodes to the chunked array. -/
theorem c8_witness :
    (parse_subrecords [(sigKWDA, [1, 0, 0, 0, 2, 0, 0, 0])]).map SubParse.keywords
      = some (kwOf [(sigKWDA, [1, 0, 0, 0, 2, 0, 0, 0])] []) :=
  (c8_amended [(sigKWDA, [1, 0, 0, 0, 2, 0, 0, 0])] (by decide)).1

/-- The splitter loop stops, returning the accumulated subrecords, as
soon as fewer than 6 bytes remain, whatever the fuel. -/
lemma parseSubsLoop_stop (rd : Bytes) (fuel pos : Nat) (xx : Option Nat)
    (acc : List (Bytes × Bytes)) (hg : rd.length - pos < 6) :
    parseSubsLoop rd fuel pos xx acc = some acc := by
  have hcond : ¬(pos < rd.length ∧ 6 ≤ rd.length - pos) := by omega
  rw [parseSubsLoop.eq_def]
  dsimp only
  rw [if_neg hcond]

/-- One XXXX iteration of the splitter loop: the 16-bit size of the
escape entry is ignored, exactly 4 bytes after the 6-byte header are read
as the override, and no subrecord is emitted. -/
lemma parseSubsLoop_xxxx (rd : Bytes) (f pos : Nat) (xx : Option Nat)
    (acc : List (Bytes × Bytes)) (_hg : pos + 6 ≤ rd.length)
    (ht : readBytes rd pos 4 = sigXXXX) (h4 : pos + 10 ≤ rd.length) :
    parseSubsLoop rd (f + 1) pos xx acc
      = parseSubsLoop rd f (pos + 10) (some (leNat (readBytes rd (pos + 6) 4))) acc := by
  have hcond : pos < rd.length ∧ 6 ≤ rd.length - pos := by omega
  have hraw : (readBytes rd (pos + 6) 4).length = 4 := by
    simp only [readBytes, List.length_take, List.length_drop]
    omega
  rw [parseSubsLoop.eq_def]
  dsimp only
  rw [if_pos hcond]
  simp only [ht, hraw]
  simp

/-- One ordinary iteration of the splitter loop emitting a subrecord: the
effective size is the pending override if any, else the 16-bit size. -/
lemma parseSubsLoop_emit (rd : Bytes) (f pos : Nat) (xx : Option Nat)
    (acc : List (Bytes × Bytes)) (hg : pos + 6 ≤ rd.length)
    (ht : readBytes rd pos 4 ≠ sigXXXX)
    (hfit : xx.getD (leNat (readBytes rd (pos + 4) 2)) ≤ rd.length - (pos + 6)) :
    parseSubsLoop rd (f + 1) pos xx acc
      = parseSubsLoop rd f (pos + 6 + xx.getD (leNat (readBytes rd (pos + 4) 2))) none
          (acc ++ [(readBytes rd pos 4,
                    readBytes rd (pos + 6) (xx.getD (leNat (readBytes rd (pos + 4) 2))))]) := by
  have hcond : pos < rd.length ∧ 6 ≤ rd.length - pos := by omega
  rw [parseSubsLoop.eq_def]
  dsimp only
  rw [if_pos hcond]
  rw [if_neg ht]
  cases xx with
  | none =>
    simp only [Option.getD] at hfit ⊢
    have hno : ¬(leNat (readBytes rd (pos + 4) 2) > rd.length - (pos + 6)) := by omega
    rw [if_neg hno]
  | some v =>
    simp only [Option.getD] at hfit ⊢
    have hno : ¬(v > rd.length - (pos + 6)) := by omega
    rw [if_neg hno]

/-- The overrun break of the splitter loop: an effective size larger than
the bytes left truncates the split, keeping the subrecords read so far. -/
lemma parseSubsLoop_break (rd : Bytes) (f pos : Nat) (xx : Option Nat)
    (acc : List (Bytes × Bytes)) (hg : pos + 6 ≤ rd.length) (_hp : pos < rd.length)
    (ht : readBytes rd pos 4 ≠ sigXXXX)
    (hfit : rd.length - (pos + 6) < xx.getD (leNat (readBytes rd (pos + 4) 2))) :
    parseSubsLoop rd (f + 1) pos xx acc = some acc := by
  have hcond : pos < rd.length ∧ 6 ≤ rd.length - pos := by omega
  rw [parseSubsLoop.eq_def]
  dsimp only
  rw [if_pos hcond]
  rw [if_neg ht]
  cases xx with
  | none =>
    simp only [Option.getD] at hfit ⊢
    have hyes : leNat (readBytes rd (pos + 4) 2) > rd.length - (pos + 6) := by omega
    rw [if_pos hyes]
  | some v =>
    simp only [Option.getD] at hfit ⊢
    have hyes : v > rd.length - (pos + 6) := by omega
    rw [if_pos hyes]

/-- C3: a payload consisting of the oversized-size escape carrying the
32-bit override 70000, followed by a subrecord header with 16-bit size 0
and 70000 payload bytes, splits into exactly one subrecord: the one of
the following type, with the full 70000-byte payload; the escape entry
contributes no subrecord and the override applies only to the entry
after it. -/
theorem c3_oversize_escape (T dataB : Bytes) (hT4 : T.length = 4) (hTne : T ≠ sigXXXX)
    (hlen : dataB.length = 70000) (f : Nat) :
    parseSubsLoop (sigXXXX ++ u16le 4 ++ u32le 70000 ++ T ++ u16le 0 ++ dataB)
        (f + 2) 0 none []
      = some [(T, dataB)] := by
  set rd := sigXXXX ++ u16le 4 ++ u32le 70000 ++ T ++ u16le 0 ++ dataB with hrd
  have hrdlen : rd.length = 70016 := by simp [hrd, sigXXXX, hT4, hlen]
  have h0 : readBytes rd 0 4 = sigXXXX := by
    rw [hrd]
    rw [show sigXXXX ++ u16le 4 ++ u32le 70000 ++ T ++ u16le 0 ++ dataB
          = sigXXXX ++ (u16le 4 ++ (u32le 70000 ++ (T ++ (u16le 0 ++ dataB)))) by simp]
    rw [readBytes_append_left _ _ 0 4 (by simp [sigXXXX])]
    decide
  have h6 : readBytes rd 6 4 = u32le 70000 := by
    rw [hrd]
    rw [show sigXXXX ++ u16le 4 ++ u32le 70000 ++ T ++ u16le 0 ++ dataB
          = (sigXXXX ++ u16le 4) ++ (u32le 70000 ++ (T ++ (u16le 0 ++ dataB))) by simp]
    rw [show (6 : Nat) = (sigXXXX ++ u16le 4).length + 0 by simp [sigXXXX]]
    rw [readBytes_append_right]
    rw [readBytes_append_left _ _ 0 4 (by simp)]
    simp [readBytes]
  have h10 : readBytes rd 10 4 = T := by
    rw [hrd]
    rw [show sigXXXX ++ u16le 4 ++ u32le 70000 ++ T ++ u16le 0 ++ dataB
          = (sigXXXX ++ u16le 4 ++ u32le 70000) ++ (T ++ (u16le 0 ++ dataB)) by simp]
    rw [show (10 : Nat) = (sigXXXX ++ u16le 4 ++ u32le 70000).length + 0 by simp [sigXXXX]]
    rw [readBytes_append_right]
    rw [readBytes_append_left _ _ 0 4 (by omega)]
    unfold readBytes
    simp [List.take_of_length_le, hT4]
  have h16 : readBytes rd 16 70000 = dataB := by
    rw [hrd]
    rw [show sigXXXX ++ u16le 4 ++ u32le 70000 ++ T ++ u16le 0 ++ dataB
          = (sigXXXX ++ u16le 4 ++ u32le 70000 ++ T ++ u16le 0) ++ dataB by simp]
    rw [show (16 : Nat) = (sigXXXX ++ u16le 4 ++ u32le 70000 ++ T ++ u16le 0).length + 0 by
          simp [sigXXXX, hT4]]
    rw [readBytes_append_right]
    unfold readBytes
    simp [List.take_of_length_le, hlen]
  rw [show f + 2 = (f + 1) + 1 by omega]
  rw [parseSubsLoop_xxxx rd (f + 1) 0 none [] (by omega) (by simpa using h0) (by omega)]
  simp only [Nat.zero_add, h6, leNat_u32le 70000 (by norm_num)]
  rw [parseSubsLoop_emit rd f 10 (some 70000) [] (by omega) (by simp [h10, hTne])
    (by simp [Option.getD]; omega)]
  simp only [Option.getD, h10, h16, List.nil_append]
  rw [parseSubsLoop_stop rd f (10 + 6 + 70000) none [(T, dataB)] (by omega)]

/-- C3 witnessed on a concrete stream: escape then a DATA subrecord of
70000 zero bytes. -/
theorem c3_witness :
    parseSubsLoop (sigXXXX ++ u16le 4 ++ u32le 70000 ++ sigDATA ++ u16le 0
        ++ List.replicate 70000 0) 2 0 none []
      = some [(sigDATA, List.replicate 70000 0)] :=
  c3_oversize_escape sigDATA (List.replicate 70000 0) (by decide) (by decide) (by rw [List.length_replicate]) 0

/-- Reads at or past the length of a prefix only see the suffix. -/
lemma readBytes_append_ge (a b : Bytes) (q n : Nat) (h : a.length ≤ q) :
    readBytes (a ++ b) q n = readBytes b (q - a.length) n := by
  rw [show q = a.length + (q - a.length) by omega]
  rw [readBytes_append_right]
  congr 1
  omega

/-- The splitter loop never looks at bytes before the current position:
running it over two buffers with equally long prefixes and a common tail,
from a position inside the tail, gives the same result. -/
lemma parseSubsLoop_congr (pre1 pre2 tail : Bytes) (hl : pre1.length = pre2.length) :
    ∀ fuel pos xx acc, pre1.length ≤ pos →
      parseSubsLoop (pre1 ++ tail) fuel pos xx acc
        = parseSubsLoop (pre2 ++ tail) fuel pos xx acc := by
  intro fuel
  induction fuel with
  | zero =>
    intro pos xx acc hlo
    rw [parseSubsLoop.eq_def, parseSubsLoop.eq_def]
    dsimp only
    simp only [List.length_append, hl]
  | succ f ih =>
    intro pos xx acc hlo
    have r1 : ∀ n, readBytes (pre1 ++ tail) pos n = readBytes tail (pos - pre1.length) n :=
      fun n => readBytes_append_ge _ _ _ _ (by omega)
    have r2 : ∀ n, readBytes (pre2 ++ tail) pos n = readBytes tail (pos - pre1.length) n := by
      intro n
      rw [readBytes_append_ge _ _ _ _ (by omega), ← hl]
    have r3 : ∀ n, readBytes (pre1 ++ tail) (pos + 4) n
        = readBytes tail (pos + 4 - pre1.length) n :=
      fun n => readBytes_append_ge _ _ _ _ (by omega)
    have r4 : ∀ n, readBytes (pre2 ++ tail) (pos + 4) n
        = readBytes tail (pos + 4 - pre1.length) n := by
      intro n
      rw [readBytes_append_ge _ _ _ _ (by omega), ← hl]
    have r5 : ∀ n, readBytes (pre1 ++ tail) (pos + 6) n
        = readBytes tail (pos + 6 - pre1.length) n :=
      fun n => readBytes_append_ge _ _ _ _ (by omega)
    have r6 : ∀ n, readBytes (pre2 ++ tail) (pos + 6) n
        = readBytes tail (pos + 6 - pre1.length) n := by
      intro n
      rw [readBytes_append_ge _ _ _ _ (by omega), ← hl]
    rw [parseSubsLoop.eq_def, parseSubsLoop.eq_def]
    dsimp only
    simp only [List.length_append, hl, r1, r2, r3, r4, r5, r6]
    by_cases hg : pos < pre2.length + tail.length ∧ 6 ≤ pre2.length + tail.length - pos
    · rw [if_pos hg, if_pos hg]
      by_cases ht : readBytes tail (pos - pre2.length) 4 = sigXXXX
      · rw [if_pos ht, if_pos ht]
        by_cases h4 : (readBytes tail (pos + 6 - pre2.length) 4).length = 4
        · rw [if_pos h4, if_pos h4]
          exact ih (pos + 10) _ _ (by omega)
        · rw [if_neg h4, if_neg h4]
      · rw [if_neg ht, if_neg ht]
        by_cases hsz : (match xx with
            | some v => v
            | none => leNat (readBytes tail (pos + 4 - pre2.length) 2))
              > pre2.length + tail.length - (pos + 6)
        · rw [if_pos hsz, if_pos hsz]
        · rw [if_neg hsz, if_neg hsz]
          exact ih _ _ _ (by omega)
    · rw [if_neg hg, if_neg hg]

/-- C10: on meeting the XXXX escape the splitter ignores the 16-bit size
declared by the escape entry itself and always consumes exactly 4 bytes
after the 6-byte header as the override; consequently the split result is
the same for every declared escape size, and a writer that stored a size
other than 4 gets the rest of its stream parsed at shifted offsets. -/
theorem c10_escape_size_ignored (s : Nat) (_hs : s < 65536) (rest : Bytes)
    (h4 : 4 ≤ rest.length) :
    (∀ f acc, parseSubsLoop (sigXXXX ++ u16le s ++ rest) (f + 1) 0 none acc
        = parseSubsLoop (sigXXXX ++ u16le s ++ rest) f 10
            (some (leNat (readBytes rest 0 4))) acc)
    ∧ ∀ g, parseSubsLoop (sigXXXX ++ u16le s ++ rest) g 0 none []
        = parseSubsLoop (sigXXXX ++ u16le 4 ++ rest) g 0 none [] := by
  have hpre : (sigXXXX ++ u16le s).length = 6 := by simp [sigXXXX]
  have hlen : (sigXXXX ++ u16le s ++ rest).length = 6 + rest.length := by
    simp [sigXXXX]
    omega
  have h0 : readBytes (sigXXXX ++ u16le s ++ rest) 0 4 = sigXXXX := by
    rw [show sigXXXX ++ u16le s ++ rest = sigXXXX ++ (u16le s ++ rest) by simp]
    rw [readBytes_append_left _ _ 0 4 (by simp [sigXXXX])]
    simp [readBytes, sigXXXX]
  have h6 : readBytes (sigXXXX ++ u16le s ++ rest) 6 4 = readBytes rest 0 4 := by
    rw [readBytes_append_ge _ _ _ _ (by omega)]
    rw [hpre]
  have hstep : ∀ f acc, parseSubsLoop (sigXXXX ++ u16le s ++ rest) (f + 1) 0 none acc
      = parseSubsLoop (sigXXXX ++ u16le s ++ rest) f 10
          (some (leNat (readBytes rest 0 4))) acc := by
    intro f acc
    rw [parseSubsLoop_xxxx _ _ _ _ _ (by omega) h0 (by omega), h6]
  refine ⟨hstep, ?_⟩
  intro g
  have hpre4 : (sigXXXX ++ u16le 4).length = 6 := by simp [sigXXXX]
  have h04 : readBytes (sigXXXX ++ u16le 4 ++ rest) 0 4 = sigXXXX := by
    rw [show sigXXXX ++ u16le 4 ++ rest = sigXXXX ++ (u16le 4 ++ rest) by simp]
    rw [readBytes_append_left _ _ 0 4 (by simp [sigXXXX])]
    simp [readBytes, sigXXXX]
  have h64 : readBytes (sigXXXX ++ u16le 4 ++ rest) 6 4 = readBytes rest 0 4 := by
    rw [readBytes_append_ge _ _ _ _ (by omega)]
    rw [hpre4]
  cases g with
  | zero =>
    rw [parseSubsLoop.eq_def, parseSubsLoop.eq_def]
    dsimp only
    rw [if_pos (by simp [sigXXXX]), if_pos (by simp [sigXXXX])]
  | succ f =>
    rw [hstep f []]
    rw [parseSubsLoop_xxxx _ _ _ _ _ (by simp [sigXXXX]) h04 (by simp [sigXXXX]; omega)]
    rw [h64]
    exact parseSubsLoop_congr (sigXXXX ++ u16le s) (sigXXXX ++ u16le 4) rest
      (by simp) f 10 _ _ (by simp [sigXXXX])

/-- C10 witnessed: a declared escape size of 9 parses exactly as a
declared escape size of 4 on the same remaining bytes. -/
theorem c10_witness :
    parseSubsLoop (sigXXXX ++ u16le 9 ++ [1, 0, 0, 0]) 2 0 none []
      = parseSubsLoop (sigXXXX ++ u16le 4 ++ [1, 0, 0, 0]) 2 0 none [] :=
  (c10_escape_size_ignored 9 (by decide) [1, 0, 0, 0] (by decide)).2 2

/-- C4: resolve_formid is total with the three master-index cases, and on
masters A.esm, B.esm the identities 0x01000001, 0x02000005 and 0x05000000
resolve to (B.esm, 000001), (the file itself, 000005) and the explicit
unknown-master placeholder with local id 000000. -/
theorem c4_resolve_formid (masters : List String) (fn : String) (fid : Nat) :
    (((fid >>> 24) &&& 255) < masters.length →
      resolve_formid masters fn fid
        = (masters.getD ((fid >>> 24) &&& 255) (String.mk []), formatHex (fid &&& 16777215) 6))
    ∧ (((fid >>> 24) &&& 255) = masters.length →
      resolve_formid masters fn fid = (fn, formatHex (fid &&& 16777215) 6))
    ∧ (masters.length < ((fid >>> 24) &&& 255) →
      resolve_formid masters fn fid
        = ("UNKNOWN_MASTER_" ++ formatHex ((fid >>> 24) &&& 255) 2,
            formatHex (fid &&& 16777215) 6))
    ∧ resolve_formid ["A.esm", "B.esm"] fn 16777217 = ("B.esm", "000001")
    ∧ resolve_formid ["A.esm", "B.esm"] fn 33554437 = (fn, "000005")
    ∧ resolve_formid ["A.esm", "B.esm"] fn 83886080 = ("UNKNOWN_MASTER_05", "000000") := by
  refine ⟨?_, ?_, ?_, ?_, ?_, ?_⟩
  · intro h
    simp only [resolve_formid]
    rw [if_pos h]
  · intro h
    simp only [resolve_formid]
    rw [if_neg (by omega), if_pos h]
  · intro h
    simp only [resolve_formid]
    rw [if_neg (by omega), if_neg (by omega)]
  · simp only [resolve_formid]
    rw [if_pos (by decide)]
    decide
  · simp only [resolve_formid]
    rw [if_neg (by decide), if_pos (by decide)]
    simp only [Prod.mk.injEq]
    exact ⟨trivial, by decide⟩
  · simp only [resolve_formid]
    rw [if_neg (by decide), if_neg (by decide)]
    decide

/-- C4 witnessed: the override case on a concrete file name. -/
theorem c4_witness :
    resolve_formid ["A.esm", "B.esm"] "X.esp" 16777217 = ("B.esm", "000001") :=
  (c4_resolve_formid ["A.esm", "B.esm"] "X.esp" 16777217).2.2.2.1

lemma assocGet_bump (l : List (Bytes × Nat)) (k : Bytes) :
    assocGet (assocBump l k) k = assocGet l k + 1 := by
  induction l with
  | nil => simp [assocGet, assocBump]
  | cons p rest ih =>
    obtain ⟨k2, v⟩ := p
    by_cases hk : k2 = k
    · simp [assocGet, assocBump, hk]
    · simp [assocGet, assocBump, hk, ih]

/-- C1: the claim states a record whose decompression fails is still
present in the by-type and by-identity record stores (with an empty
subrecord list).  It is false: the source returns from _parse_record
before the store statements, so the record is dropped entirely.  On this
file the decode succeeds, the record was counted (record count and
compressed count are 1) and a warning was printed, but both indexes are
empty. -/
theorem c1_cex :
    (espParse (fun _ _ => none) true none c1File).map
        (fun st => (st.recordsList.length, st.records_by_formid.length,
          st.record_count, st.compressed_count))
      = some (0, 0, 1, 1) := by
  decide

/-- C6: the claim states the caller is informed of the incomplete decode
by a recorded warning.  It is false: the truncation branch of
_parse_record silently skips the rest and returns None, emitting nothing
even under verbose; the only trace is the record-count increment.  Here
the decode succeeds with zero warnings, zero stored records, and a record
count of 1. -/
theorem c6_cex :
    (espParse (fun _ _ => none) true none c6File).map
        (fun st => (st.warnings.length, st.recordsList.length,
          st.records_by_formid.length, st.record_count))
      = some (0, 0, 0, 1) := by
  decide

/-- C5: the claim states a decode with interest set KYWD stores zero
records of any other type.  It is false: only type-0 containers are
filtered; the record decoder itself never filters, so a record reached
outside a filtered container (here a stray top-level WEAP record, which
the top-level loop of parse dispatches to _parse_record) is stored
whatever its type. -/
theorem c5_cex :
    (espParse (fun _ _ => none) false (some [sigKYWD]) c5CexFile).map
        (fun st => ((recordsOfType st sigWEAP).length, st.record_count))
      = some (1, 1) := by
  decide

/-- C2: the claim states no read performed while processing a container
advances the cursor past its content end.  It is false: the walker stops
dispatching at the content end, but a dispatched record reads its whole
declared payload bounded only by the buffer.  Here the content end is
0 + 24 + (48 - 24) = 48, the single entry is dispatched at 24, and the
walker returns with the cursor at 58, ten bytes past the content end. -/
theorem c2_cex :
    (parseGroup (fun _ _ => none) false c2Data none 100 0 {}).map
        (fun r => (r.2.1, r.2.2))
      = some (58, [24])
    ∧ (0 : Int) + 24 + ((leNat (readBytes c2Data 4 4) : Int) - 24) = 48
    ∧ ¬(58 : Int) ≤ 48 := by
  refine ⟨by decide, by decide, by decide⟩

/- == General record-decoder theorems == -/

lemma readBytes_length (data : Bytes) (pos n : Nat) :
    (readBytes data pos n).length = min n (data.length - pos) := by
  simp [readBytes]

lemma finishRecord_counts (st : PState) (rec0 : ESPRec) (rd : Bytes) (pos2 : Nat)
    (st2 : PState) (p2 : Nat) (orec : Option ESPRec)
    (h : finishRecord st rec0 rd pos2 = some (st2, p2, orec)) :
    st2.record_count = st.record_count ∧ st2.type_counts = st.type_counts := by
  unfold finishRecord at h
  cases h1 : parseSubsLoop rd (rd.length + 1) 0 none [] with
  | none => rw [h1] at h; exact absurd h (by simp)
  | some subs =>
    rw [h1] at h
    dsimp only at h
    cases h2 : parse_subrecords subs with
    | none => rw [h2] at h; exact absurd h (by simp)
    | some flds =>
      rw [h2] at h
      simp only [Option.some.injEq, Prod.mk.injEq] at h
      obtain ⟨hst, _, _⟩ := h
      subst hst
      exact ⟨rfl, rfl⟩

/-- C1 amended: when a compressed record (envelope in bounds, declared
size within the remaining bytes and at least 4) fails to decompress, the
record decoder still succeeds and decoding continues right after the
payload; the record and compressed counters are incremented and under
verbose a warning is printed; the returned record object has an empty
subrecord list and zero keywords; but the record is not inserted into the
by-type or by-identity store — it is dropped entirely, so only the
counters witness it. -/
theorem c1_amended (inflate : Bytes → Nat → Option Bytes) (verbose : Bool) (data : Bytes)
    (filt : Option (List Bytes)) (pos : Nat) (st : PState)
    (h24 : 24 ≤ data.length - pos)
    (hds : leNat (readBytes data (pos + 4) 4) ≤ data.length - (pos + 24))
    (hcomp : leNat (readBytes data (pos + 8) 4) &&& 262144 ≠ 0)
    (hge4 : 4 ≤ leNat (readBytes data (pos + 4) 4))
    (hinf : inflate ((readBytes data (pos + 24) (leNat (readBytes data (pos + 4) 4))).drop 4)
        (leNat (readBytes (readBytes data (pos + 24) (leNat (readBytes data (pos + 4) 4))) 0 4))
      = none) :
    parseRecord inflate verbose data filt pos st
      = some ({ st with
          record_count := st.record_count + 1,
          type_counts := assocBump st.type_counts (readBytes data pos 4),
          compressed_count := st.compressed_count + 1,
          warnings := if verbose then
              st.warnings ++ [(readBytes data pos 4, leNat (readBytes data (pos + 12) 4))]
            else st.warnings },
        pos + 24 + leNat (readBytes data (pos + 4) 4),
        some { type := readBytes data pos 4,
               data_size := leNat (readBytes data (pos + 4) 4),
               flags := leNat (readBytes data (pos + 8) 4),
               form_id := leNat (readBytes data (pos + 12) 4),
               timestamp := leNat (readBytes data (pos + 16) 4),
               version_info := leNat (readBytes data (pos + 20) 4),
               subrecords := [],
               is_compressed := decide (leNat (readBytes data (pos + 8) 4) &&& 262144 ≠ 0),
               editor_id := [], full_name := FullName.text [],
               keywords := [], raw_data := [] }) := by
  have hA : ¬(br_remaining data pos < 24) := by
    unfold br_remaining
    omega
  have hB : ¬(leNat (readBytes data (pos + 4) 4) > br_remaining data (pos + 24)) := by
    unfold br_remaining
    omega
  have hlenrd : (readBytes data (pos + 24) (leNat (readBytes data (pos + 4) 4))).length
      = leNat (readBytes data (pos + 4) 4) := by
    rw [readBytes_length]
    omega
  have hC : leNat (readBytes data (pos + 8) 4) &&& 262144 ≠ 0
      ∧ 4 ≤ (readBytes data (pos + 24) (leNat (readBytes data (pos + 4) 4))).length :=
    ⟨hcomp, by rw [hlenrd]; exact hge4⟩
  unfold parseRecord
  rw [if_neg hA]
  try dsimp only
  rw [if_neg hB]
  try dsimp only
  rw [if_pos hC]
  try dsimp only
  rw [hinf]

/-- C1 amended, witnessed on the concrete compressed-record file with the
failing inflation oracle. -/
theorem c1_witness :
    parseRecord (fun _ _ => none) true c1File none 24 {}
      = some ({ record_count := 1, compressed_count := 1,
                type_counts := [(sigKYWD, 1)], warnings := [(sigKYWD, 1)] },
          52,
          some { type := sigKYWD, data_size := 4, flags := 262144, form_id := 1,
                 timestamp := 0, version_info := 0, subrecords := [],
                 is_compressed := true, editor_id := [], full_name := FullName.text [],
                 keywords := [], raw_data := [] }) := by
  rw [c1_amended (fun _ _ => none) true c1File none 24 {} (by decide) (by decide)
    (by decide) (by decide) rfl]
  decide

/-- C6 amended: a record envelope whose declared payload size exceeds the
remaining bytes makes the decoder consume all remaining bytes, store no
record and raise nothing, with the record and per-type counters already
incremented; but no warning is recorded and nothing else informs the
caller — the only trace of the drop is the counter increment. -/
theorem c6_amended (inflate : Bytes → Nat → Option Bytes) (verbose : Bool) (data : Bytes)
    (filt : Option (List Bytes)) (pos : Nat) (st : PState)
    (h24 : 24 ≤ data.length - pos)
    (hds : data.length - (pos + 24) < leNat (readBytes data (pos + 4) 4)) :
    parseRecord inflate verbose data filt pos st
      = some ({ st with
          record_count := st.record_count + 1,
          type_counts := assocBump st.type_counts (readBytes data pos 4) },
        pos + 24 + br_remaining data (pos + 24), none) := by
  have hA : ¬(br_remaining data pos < 24) := by
    unfold br_remaining
    omega
  have hB : leNat (readBytes data (pos + 4) 4) > br_remaining data (pos + 24) := by
    unfold br_remaining
    omega
  unfold parseRecord
  rw [if_neg hA]
  try dsimp only
  rw [if_pos hB]

/-- C6 amended, witnessed on the concrete truncated file. -/
theorem c6_witness :
    parseRecord (fun _ _ => none) true c6File none 24 {}
      = some ({ record_count := 1, type_counts := [(sigKYWD, 1)] }, 48, none) := by
  rw [c6_amended (fun _ _ => none) true c6File none 24 {} (by decide) (by decide)]
  decide

/-- C9: once at least 24 bytes remain, the record decoder increments the
record counter and the per-type counter before the truncation check, so a
record whose declared size exceeds the remaining bytes is counted even
though it is dropped from both indexes and nothing is returned for it;
consequently there is an input whose final record count strictly exceeds
the number of records held in the by-type and the by-identity index. -/
theorem c9_envelope_counted (inflate : Bytes → Nat → Option Bytes) (verbose : Bool)
    (data : Bytes) (filt : Option (List Bytes)) (pos : Nat) (st st2 : PState)
    (pos2 : Nat) (orec : Option ESPRec)
    (h24 : 24 ≤ data.length - pos)
    (hrun : parseRecord inflate verbose data filt pos st = some (st2, pos2, orec)) :
    st2.record_count = st.record_count + 1
    ∧ assocGet st2.type_counts (readBytes data pos 4)
        = assocGet st.type_counts (readBytes data pos 4) + 1
    ∧ (data.length - (pos + 24) < leNat (readBytes data (pos + 4) 4) →
        st2.recordsList = st.recordsList ∧ st2.records_by_formid = st.records_by_formid
          ∧ orec = none)
    ∧ ∃ d : Bytes, (espParse (fun _ _ => none) false none d).map
        (fun stF => decide (stF.recordsList.length < stF.record_count
          ∧ stF.records_by_formid.length < stF.record_count)) = some true := by
  have hA : ¬(br_remaining data pos < 24) := by
    unfold br_remaining
    omega
  have hEx : ∃ d : Bytes, (espParse (fun _ _ => none) false none d).map
      (fun stF => decide (stF.recordsList.length < stF.record_count
        ∧ stF.records_by_formid.length < stF.record_count)) = some true :=
    ⟨c6File, by decide⟩
  unfold parseRecord at hrun
  rw [if_neg hA] at hrun
  try dsimp only at hrun
  by_cases hB : leNat (readBytes data (pos + 4) 4) > br_remaining data (pos + 24)
  · rw [if_pos hB] at hrun
    simp only [Option.some.injEq, Prod.mk.injEq] at hrun
    obtain ⟨hst, _hpos, horec⟩ := hrun
    subst hst
    refine ⟨rfl, assocGet_bump _ _, fun _ => ⟨rfl, rfl, horec.symm⟩, hEx⟩
  · rw [if_neg hB] at hrun
    try dsimp only at hrun
    have hTr : data.length - (pos + 24) < leNat (readBytes data (pos + 4) 4) → False := by
      intro hx
      unfold br_remaining at hB
      omega
    by_cases hCp : leNat (readBytes data (pos + 8) 4) &&& 262144 ≠ 0
        ∧ 4 ≤ (readBytes data (pos + 24) (leNat (readBytes data (pos + 4) 4))).length
    · rw [if_pos hCp] at hrun
      try dsimp only at hrun
      cases hI : inflate
          ((readBytes data (pos + 24) (leNat (readBytes data (pos + 4) 4))).drop 4)
          (leNat (readBytes (readBytes data (pos + 24) (leNat (readBytes data (pos + 4) 4))) 0 4))
          with
      | none =>
        rw [hI] at hrun
        simp only [Option.some.injEq, Prod.mk.injEq] at hrun
        obtain ⟨hst, _hpos, _horec⟩ := hrun
        subst hst
        refine ⟨rfl, assocGet_bump _ _, fun hx => absurd hx hTr, hEx⟩
      | some rd =>
        rw [hI] at hrun
        obtain ⟨hc1, hc2⟩ := finishRecord_counts _ _ _ _ _ _ _ hrun
        refine ⟨by rw [hc1], by rw [hc2]; exact assocGet_bump _ _,
          fun hx => absurd hx hTr, hEx⟩
    · rw [if_neg hCp] at hrun
      obtain ⟨hc1, hc2⟩ := finishRecord_counts _ _ _ _ _ _ _ hrun
      refine ⟨by rw [hc1], by rw [hc2]; exact assocGet_bump _ _,
        fun hx => absurd hx hTr, hEx⟩

/-- C9 witnessed: on the truncated file the per-type counter of the
dropped record is incremented. -/
theorem c9_witness :
    assocGet ([(sigKYWD, 1)] : List (Bytes × Nat)) (readBytes c6File 24 4)
      = assocGet ({} : PState).type_counts (readBytes c6File 24 4) + 1 :=
  (c9_envelope_counted (fun _ _ => none) false c6File none 24 {}
    { record_count := 1, type_counts := [(sigKYWD, 1)] } 48 none
    (by decide) (by decide)).2.1

/- == Container walker theorems == -/

lemma br_read_uint32_some (data : Bytes) (pos v p : Nat)
    (h : br_read_uint32 data pos = some (v, p)) :
    v = leNat (readBytes data pos 4) ∧ p = pos + 4 := by
  unfold br_read_uint32 at h
  by_cases hb : pos + 4 ≤ data.length
  · rw [if_pos hb] at h
    simp only [Option.some.injEq, Prod.mk.injEq] at h
    exact ⟨h.1.symm, h.2.symm⟩
  · rw [if_neg hb] at h
    exact absurd h (by simp)

lemma br_read_int32_some (data : Bytes) (pos : Nat) (v : Int) (p : Nat)
    (h : br_read_int32 data pos = some (v, p)) : p = pos + 4 := by
  unfold br_read_int32 at h
  by_cases hb : pos + 4 ≤ data.length
  · rw [if_pos hb] at h
    simp only [Option.some.injEq, Prod.mk.injEq] at h
    exact h.2.symm
  · rw [if_neg hb] at h
    exact absurd h (by simp)

/-- Every position the content loop of the walker dispatches an entry at
is either inherited from the ghost accumulator or strictly below the
content end. -/
lemma walk_loop_disp (inflate : Bytes → Nat → Option Bytes) (verbose : Bool)
    (data : Bytes) (filt : Option (List Bytes)) :
    ∀ fuel (endPos : Int) pos st disp0 res,
      walk inflate verbose data filt fuel (WalkCall.loop endPos pos disp0) st = some res →
      ∀ d ∈ res.2.2, d ∈ disp0 ∨ (d : Int) < endPos := by
  intro fuel
  induction fuel with
  | zero =>
    intro endPos pos st disp0 res h
    rw [walk.eq_def] at h
    dsimp only at h
    by_cases h1 : (pos : Int) < endPos
    · rw [if_pos h1] at h
      by_cases h2 : br_remaining data pos < 4
      · rw [if_pos h2] at h
        injection h with h
        subst h
        intro d hd
        exact Or.inl hd
      · rw [if_neg h2] at h
        exact absurd h (by simp)
    · rw [if_neg h1] at h
      injection h with h
      subst h
      intro d hd
      exact Or.inl hd
  | succ f ih =>
    intro endPos pos st disp0 res h
    rw [walk.eq_def] at h
    dsimp only at h
    by_cases h1 : (pos : Int) < endPos
    · rw [if_pos h1] at h
      by_cases h2 : br_remaining data pos < 4
      · rw [if_pos h2] at h
        injection h with h
        subst h
        intro d hd
        exact Or.inl hd
      · rw [if_neg h2] at h
        by_cases h3 : br_peek_is data pos sigGRUP = true
        · rw [if_pos h3] at h
          cases hg : walk inflate verbose data filt f (WalkCall.group pos) st with
          | none => rw [hg] at h; exact absurd h (by simp)
          | some r2 =>
            rw [hg] at h
            obtain ⟨st2, pos2, dd⟩ := r2
            dsimp only at h
            intro d hd
            rcases ih endPos pos2 st2 (disp0 ++ [pos]) res h d hd with hin | hlt
            · rcases List.mem_append.mp hin with hin0 | hinp
              · exact Or.inl hin0
              · have hdp : d = pos := by simpa using hinp
                subst hdp
                exact Or.inr h1
            · exact Or.inr hlt
        · rw [if_neg h3] at h
          cases hr : parseRecord inflate verbose data filt pos st with
          | none => rw [hr] at h; exact absurd h (by simp)
          | some r2 =>
            rw [hr] at h
            obtain ⟨st2, pos2, dd⟩ := r2
            dsimp only at h
            intro d hd
            rcases ih endPos pos2 st2 (disp0 ++ [pos]) res h d hd with hin | hlt
            · rcases List.mem_append.mp hin with hin0 | hinp
              · exact Or.inl hin0
              · have hdp : d = pos := by simpa using hinp
                subst hdp
                exact Or.inr h1
            · exact Or.inr hlt
    · rw [if_neg h1] at h
      injection h with h
      subst h
      intro d hd
      exact Or.inl hd

/-- C2 amended: the content end of a container is exactly
start + 24 + (declared size - 24) in integer arithmetic, and every entry
the walker dispatches inside the container starts strictly before that
content end; however the reads of a dispatched entry are bounded only by
the buffer and can leave the cursor past the content end (c2_cex). -/
theorem c2_amended (inflate : Bytes → Nat → Option Bytes) (verbose : Bool)
    (data : Bytes) (filt : Option (List Bytes)) (fuel pos : Nat) (st : PState)
    (disp : List Nat)
    (hm : (parseGroup inflate verbose data filt fuel pos st).map (fun r => r.2.2)
      = some disp) :
    ∀ d ∈ disp,
      (d : Int) < (pos : Int) + 24 + ((leNat (readBytes data (pos + 4) 4) : Int) - 24) := by
  obtain ⟨res, h, hdisp⟩ := Option.map_eq_some'.mp hm
  subst hdisp
  unfold parseGroup at h
  rw [walk.eq_def] at h
  dsimp only [br_read_sig, br_read] at h
  by_cases h0 : readBytes data pos 4 = sigGRUP
  · rw [if_pos h0] at h
    cases hu1 : br_read_uint32 data (pos + 4) with
    | none => rw [hu1] at h; exact absurd h (by simp)
    | some r1 =>
      rw [hu1] at h
      obtain ⟨gsize, p2⟩ := r1
      obtain ⟨hgv, hp2⟩ := br_read_uint32_some _ _ _ _ hu1
      dsimp only at h
      cases hu2 : br_read_int32 data (p2 + 4) with
      | none => rw [hu2] at h; exact absurd h (by simp)
      | some r2 =>
        rw [hu2] at h
        obtain ⟨gtype, p4⟩ := r2
        have hp4 := br_read_int32_some _ _ _ _ hu2
        dsimp only at h
        cases hu3 : br_read_uint32 data p4 with
        | none => rw [hu3] at h; exact absurd h (by simp)
        | some r3 =>
          rw [hu3] at h
          obtain ⟨ts, p5⟩ := r3
          obtain ⟨_, hp5⟩ := br_read_uint32_some _ _ _ _ hu3
          dsimp only at h
          cases hu4 : br_read_uint32 data p5 with
          | none => rw [hu4] at h; exact absurd h (by simp)
          | some r4 =>
            rw [hu4] at h
            obtain ⟨vi, p6⟩ := r4
            obtain ⟨_, hp6⟩ := br_read_uint32_some _ _ _ _ hu4
            dsimp only at h
            by_cases hskip : gtype = 0 ∧ skipFilter filt (readBytes data p2 4) = true
            · rw [if_pos hskip] at h
              injection h with h
              subst h
              intro d hd
              simp at hd
            · rw [if_neg hskip] at h
              cases fuel with
              | zero => exact absurd h (by simp)
              | succ f =>
                intro d hd
                rcases walk_loop_disp inflate verbose data filt f _ _ _ _ _ h d hd
                  with hin | hlt
                · simp at hin
                · have : gsize = leNat (readBytes data (pos + 4) 4) := hgv
                  subst this
                  subst hp2
                  subst hp4
                  subst hp5
                  subst hp6
                  push_cast at hlt ⊢
                  omega
  · rw [if_neg h0] at h
    exact absurd h (by simp)

/-- C2 amended, witnessed: on the concrete overshooting file the single
dispatch position 24 is below the content end 48. -/
theorem c2_witness :
    (24 : Int) < (0 : Int) + 24 + ((leNat (readBytes c2Data 4 4) : Int) - 24) :=
  c2_amended (fun _ _ => none) false c2Data none 100 0 {} [24] (by decide) 24 (by decide)

/-- C5 amended: with interest set KYWD, a top-level type-0 container
whose label is not KYWD is skipped over its entire declared content span
without a single byte of that span being read: for every content blob
whatsoever (arbitrary corrupted bytes), the decode succeeds, counts one
group, parses no record and stores nothing.  (Records reached outside
such containers are still stored whatever their type: c5_cex.) -/
theorem c5_amended (inflate : Bytes → Nat → Option Bytes) (verbose : Bool)
    (junk : Bytes) (hlen : junk.length + 24 < 4294967296) :
    espParse inflate verbose (some [sigKYWD]) (c5File junk) = some { group_count := 1 } := by
  have hlen48 : (c5File junk).length = 48 + junk.length := by
    simp [c5File, tes4Bytes, sigGRUP, c5GrupTail, sigWEAP]
    omega
  have hpre : ∀ p k, p + k ≤ 28 →
      readBytes (c5File junk) p k = readBytes (tes4Bytes ++ sigGRUP) p k := by
    intro p k h
    rw [show c5File junk = (tes4Bytes ++ sigGRUP)
        ++ (u32le (junk.length + 24) ++ (c5GrupTail ++ junk)) from by simp [c5File]]
    exact readBytes_append_left _ _ _ _ (by rw [show (tes4Bytes ++ sigGRUP).length = 28 from by decide]; omega)
  have hplen : ((tes4Bytes ++ sigGRUP) ++ u32le (junk.length + 24)).length = 32 := by
    simp [tes4Bytes, sigGRUP]
  have hpost : ∀ k m, readBytes (c5File junk) (32 + k) m = readBytes (c5GrupTail ++ junk) k m := by
    intro k m
    rw [show c5File junk = ((tes4Bytes ++ sigGRUP) ++ u32le (junk.length + 24))
        ++ (c5GrupTail ++ junk) from by simp [c5File]]
    rw [show (32 + k : Nat) = ((tes4Bytes ++ sigGRUP) ++ u32le (junk.length + 24)).length + k
        from by rw [hplen]]
    exact readBytes_append_right _ _ _ _
  have r0 : readBytes (c5File junk) 0 4 = sigTES4 := by
    rw [hpre 0 4 (by omega)]
    decide
  have r4 : readBytes (c5File junk) 4 4 = [0, 0, 0, 0] := by
    rw [hpre 4 4 (by omega)]
    decide
  have r8 : readBytes (c5File junk) 8 4 = [0, 0, 0, 0] := by
    rw [hpre 8 4 (by omega)]
    decide
  have r12 : readBytes (c5File junk) 12 4 = [0, 0, 0, 0] := by
    rw [hpre 12 4 (by omega)]
    decide
  have r16 : readBytes (c5File junk) 16 4 = [0, 0, 0, 0] := by
    rw [hpre 16 4 (by omega)]
    decide
  have r20 : readBytes (c5File junk) 20 4 = [0, 0, 0, 0] := by
    rw [hpre 20 4 (by omega)]
    decide
  have r24 : readBytes (c5File junk) 24 4 = sigGRUP := by
    rw [hpre 24 4 (by omega)]
    decide
  have r28 : readBytes (c5File junk) 28 4 = u32le (junk.length + 24) := by
    rw [show c5File junk = (tes4Bytes ++ sigGRUP)
        ++ (u32le (junk.length + 24) ++ (c5GrupTail ++ junk)) from by simp [c5File]]
    rw [show (28 : Nat) = (tes4Bytes ++ sigGRUP).length + 0 from by decide]
    rw [readBytes_append_right]
    rw [readBytes_append_left _ _ 0 4 (by simp)]
    unfold readBytes
    simp [List.take_of_length_le]
  have r32 : readBytes (c5File junk) 32 4 = sigWEAP := by
    rw [show (32 : Nat) = 32 + 0 from rfl, hpost]
    rw [readBytes_append_left _ _ 0 4 (by decide)]
    decide
  have r36 : readBytes (c5File junk) 36 4 = [0, 0, 0, 0] := by
    rw [show (36 : Nat) = 32 + 4 from rfl, hpost]
    rw [readBytes_append_left _ _ 4 4 (by decide)]
    decide
  have r40 : readBytes (c5File junk) 40 4 = [0, 0, 0, 0] := by
    rw [show (40 : Nat) = 32 + 8 from rfl, hpost]
    rw [readBytes_append_left _ _ 8 4 (by decide)]
    decide
  have r44 : readBytes (c5File junk) 44 4 = [0, 0, 0, 0] := by
    rw [show (44 : Nat) = 32 + 12 from rfl, hpost]
    rw [readBytes_append_left _ _ 12 4 (by decide)]
    decide
  have hb4 : br_read_uint32 (c5File junk) 4 = some (0, 8) := by
    unfold br_read_uint32
    rw [if_pos (by rw [hlen48]; omega), r4]
    rfl
  have hb8 : br_read_uint32 (c5File junk) 8 = some (0, 12) := by
    unfold br_read_uint32
    rw [if_pos (by rw [hlen48]; omega), r8]
    rfl
  have hb12 : br_read_uint32 (c5File junk) 12 = some (0, 16) := by
    unfold br_read_uint32
    rw [if_pos (by rw [hlen48]; omega), r12]
    rfl
  have hb16 : br_read_uint32 (c5File junk) 16 = some (0, 20) := by
    unfold br_read_uint32
    rw [if_pos (by rw [hlen48]; omega), r16]
    rfl
  have hb20 : br_read_uint32 (c5File junk) 20 = some (0, 24) := by
    unfold br_read_uint32
    rw [if_pos (by rw [hlen48]; omega), r20]
    rfl
  have hb28 : br_read_uint32 (c5File junk) 28 = some (junk.length + 24, 32) := by
    unfold br_read_uint32
    rw [if_pos (by rw [hlen48]; omega), r28, leNat_u32le _ (by omega)]
  have hi36 : br_read_int32 (c5File junk) 36 = some (0, 40) := by
    unfold br_read_int32
    rw [if_pos (by rw [hlen48]; omega), r36]
    rfl
  have hb40 : br_read_uint32 (c5File junk) 40 = some (0, 44) := by
    unfold br_read_uint32
    rw [if_pos (by rw [hlen48]; omega), r40]
    rfl
  have hb44 : br_read_uint32 (c5File junk) 44 = some (0, 48) := by
    unfold br_read_uint32
    rw [if_pos (by rw [hlen48]; omega), r44]
    rfl
  have hTes4 : parseTes4 (c5File junk) 0 {} = some ({}, 24) := by
    unfold parseTes4
    dsimp only [br_read_sig]
    rw [r0, if_pos rfl]
    norm_num
    rw [hb4]
    dsimp only
    rw [hb8]
    dsimp only
    rw [hb12]
    dsimp only
    rw [hb16]
    dsimp only
    rw [hb20]
    dsimp only
    rw [parseTes4Loop.eq_def]
    dsimp only
    rw [if_neg (show ¬(24 < 24 + 0) by omega)]
    rfl
  have hwalk : ∀ f st, walk inflate verbose (c5File junk) (some [sigKYWD]) f
      (WalkCall.group 24) st
        = some ({ st with group_count := st.group_count + 1 }, 24 + (junk.length + 24), []) := by
    intro f st
    rw [walk.eq_def]
    dsimp only [br_read_sig, br_read]
    rw [r24, if_pos rfl]
    norm_num
    rw [hb28]
    dsimp only
    norm_num
    rw [hi36]
    dsimp only
    rw [hb40]
    dsimp only
    rw [hb44]
    dsimp only
    rw [r32]
    rw [if_pos (show (0 : Int) = 0 ∧ skipFilter (some [sigKYWD]) sigWEAP = true
      from ⟨rfl, by decide⟩)]
  unfold espParse
  rw [hTes4]
  dsimp only
  rw [hlen48]
  rw [show (48 + junk.length + 1 : Nat) = Nat.succ (48 + junk.length) from rfl]
  rw [topLoop.eq_def]
  dsimp only
  rw [if_pos (show 24 < (c5File junk).length ∧ 4 ≤ (c5File junk).length - 24
    from by rw [hlen48]; omega)]
  rw [show br_peek_is (c5File junk) 24 sigGRUP = true from by
    unfold br_peek_is
    rw [if_pos (by rw [hlen48]; omega), r24, if_pos rfl]]
  try dsimp only
  rw [hwalk]
  try dsimp only
  rw [topLoop.eq_def]
  dsimp only
  rw [if_neg (show ¬(24 + (junk.length + 24) < (c5File junk).length
      ∧ 4 ≤ (c5File junk).length - (24 + (junk.length + 24)))
    from by rw [hlen48]; omega)]
  rfl

/-- C5 amended, witnessed on the empty content blob. -/
theorem c5_witness :
    espParse (fun _ _ => none) false (some [sigKYWD]) (c5File [])
      = some { group_count := 1 } :=
  c5_amended (fun _ _ => none) false [] (by decide)

end FO4
